import Mathlib

/-!
# Verification of the Sydney-Live-Map backend core

Shallow embedding of `backend/app/crud.py` and `backend/app/seed.py`.

Modelling conventions:
* SQLAlchemy stores are lists of records; SQL queries are translated to
  list combinators with nested-loop join semantics.
* `datetime` timestamps are modelled as integers (the code only compares,
  maxes and groups timestamps, so any linear order works; for the seeder
  one unit = one hour).
* Python `float` arithmetic is modelled over `ℚ`.  For `compute_intensity`
  (where a claim is sensitive to binary64 rounding) the division
  `count / 2000.0` is modelled by exact division followed by `nearestFloat`,
  the round-to-nearest-even binary64 rounding over `ℚ` (overflow and
  subnormals are outside the range exercised here and are not modelled).
  Python's `round(x, 3)` rounds the exact value of the binary64 argument
  half-to-even to a multiple of 1/1000 (`pyRound3`); the final conversion of
  that decimal back to binary64 is omitted, being exact at 0 and 1 and
  strictly order- and sign-preserving.
* `math.exp` and the `random` module consume real numbers the code never
  inspects; they are abstracted as oracle parameters (`exp`, `noise`).
-/

/-! ## Rounding primitives -/

/-- Round to the nearest integer, ties to the even integer
(the rounding mode of IEEE-754 binary64 and of Python's `round`). -/
def rhe (x : ℚ) : ℤ :=
  if x - ⌊x⌋ < 1/2 then ⌊x⌋
  else if 1/2 < x - ⌊x⌋ then ⌊x⌋ + 1
  else if ⌊x⌋ % 2 = 0 then ⌊x⌋ else ⌊x⌋ + 1

/-- Round a positive rational to the nearest binary64 value: scale into
`[2^52, 2^53)`, round to an integer significand ties-to-even, scale back. -/
def nfAbs (q : ℚ) : ℚ :=
  (rhe (q * 2 ^ ((52 : ℤ) - Int.log 2 q)) : ℚ) * 2 ^ (Int.log 2 q - 52)

/-- Round a rational to the nearest binary64 value (round-to-nearest-even). -/
def nearestFloat (q : ℚ) : ℚ :=
  if q = 0 then 0 else if q < 0 then -nfAbs (-q) else nfAbs q

/-- Python's `round(x, 3)` on the exact value of a binary64 argument:
half-to-even rounding to a multiple of 1/1000. -/
def pyRound3 (x : ℚ) : ℚ := (rhe (x * 1000) : ℚ) / 1000

/-! ## crud.py -/

/-- Row of the `locations` table (`models.Location`). -/
structure Location where
  id : ℕ
  name : String
  latitude : ℚ
  longitude : ℚ
  type : String
  deriving DecidableEq, Repr

/-- Row of the `metrics` table (`models.Metric`): one count sample for one
location at one instant. -/
structure Metric where
  id : ℕ
  location_id : ℕ
  timestamp : ℤ
  count : ℤ
  deriving DecidableEq, Repr

/-- The intensity heuristic `crud.compute_intensity`:
`round(min(count / 2000.0, 1.0), 3)`. -/
def compute_intensity (count : ℤ) : ℚ :=
  pyRound3 (min (nearestFloat ((count : ℚ) / 2000)) 1)

/-- Update an association list with one `(location_id, timestamp)` pair,
keeping the maximal timestamp per key. -/
def insertMaxTs (lid : ℕ) (ts : ℤ) : List (ℕ × ℤ) → List (ℕ × ℤ)
  | [] => [(lid, ts)]
  | p :: rest =>
      if p.1 = lid then (p.1, max p.2 ts) :: rest
      else p :: insertMaxTs lid ts rest

/-- The `GROUP BY location_id / max(timestamp)` subquery of
`latest_intensity_for_locations`: fold the metric rows into an association
list from `location_id` to the greatest timestamp seen. -/
def groupMaxTs : List Metric → List (ℕ × ℤ)
  | [] => []
  | m :: rest => insertMaxTs m.location_id m.timestamp (groupMaxTs rest)

/-- The `crud.latest_intensity_for_locations` query: per location, the newest
metric with `timestamp <= at`, paired with its computed intensity.  The two
SQL joins are nested loops; `type_value` filtering mirrors Python's
`if type_value:` (so the empty string, being falsy, disables the filter). -/
def latest_intensity_for_locations (locs : List Location) (metrics : List Metric)
    (at_ : ℤ) (type_value : Option String) : List (Location × ℚ) :=
  let subq := groupMaxTs (metrics.filter (fun m => m.timestamp ≤ at_))
  let rows := locs.flatMap (fun loc =>
    (subq.filter (fun p => p.1 = loc.id)).flatMap (fun p =>
      (metrics.filter (fun m => m.location_id = p.1 ∧ m.timestamp = p.2)).map
        (fun m => (loc, m))))
  let rows := match type_value with
    | some tv => if tv = "" then rows else rows.filter (fun r => r.1.type = tv)
    | none => rows
  rows.map (fun r => (r.1, compute_intensity r.2.count))

/-- Entry of `seed.SEED_LOCATIONS`. -/
structure SeedLocation where
  name : String
  latitude : ℚ
  longitude : ℚ
  type : String
  deriving DecidableEq, Repr

/-- The `seed.SEED_LOCATIONS` table. -/
def SEED_LOCATIONS : List SeedLocation :=
  [⟨"George St & Martin Pl", -33.8675, 151.2070, "pedestrian"⟩,
   ⟨"Pitt St Mall", -33.8707, 151.2079, "pedestrian"⟩,
   ⟨"Harbour Bridge South", -33.8523, 151.2108, "traffic"⟩,
   ⟨"Central Station", -33.8830, 151.2068, "pedestrian"⟩,
   ⟨"Town Hall", -33.8732, 151.2066, "pedestrian"⟩,
   ⟨"Circular Quay", -33.8610, 151.2108, "pedestrian"⟩,
   ⟨"Darling Harbour", -33.8728, 151.1992, "pedestrian"⟩,
   ⟨"Ultimo Harris St", -33.8792, 151.1975, "pedestrian"⟩,
   ⟨"Anzac Bridge East", -33.8695, 151.1885, "traffic"⟩,
   ⟨"Barangaroo", -33.8616, 151.2019, "pedestrian"⟩,
   ⟨"Wynyard Station", -33.8650, 151.2065, "pedestrian"⟩,
   ⟨"Hyde Park North", -33.8690, 151.2127, "pedestrian"⟩,
   ⟨"Hyde Park South", -33.8745, 151.2114, "pedestrian"⟩,
   ⟨"Oxford St & Crown St", -33.8794, 151.2152, "pedestrian"⟩,
   ⟨"Surry Hills Crown & Cleveland", -33.8870, 151.2104, "pedestrian"⟩,
   ⟨"Broadway & Harris St", -33.8823, 151.1979, "traffic"⟩,
   ⟨"Kings Cross Station", -33.8740, 151.2253, "pedestrian"⟩,
   ⟨"Glebe Point Rd & St Johns Rd", -33.8799, 151.1826, "pedestrian"⟩,
   ⟨"Redfern Station", -33.8923, 151.2048, "pedestrian"⟩,
   ⟨"Parramatta Rd & City Rd", -33.8887, 151.1895, "traffic"⟩,
   ⟨"Eastern Distributor Entry", -33.8711, 151.2205, "traffic"⟩,
   ⟨"Western Distributor Ramp", -33.8679, 151.1946, "traffic"⟩,
   ⟨"Sydney Opera House", -33.8568, 151.2153, "pedestrian"⟩,
   ⟨"Royal Botanic Gardens Gate", -33.8643, 151.2165, "pedestrian"⟩,
   ⟨"The Rocks Argyle St", -33.8582, 151.2077, "pedestrian"⟩,
   ⟨"Observatory Hill", -33.8596, 151.2036, "pedestrian"⟩,
   ⟨"Pyrmont Bridge East", -33.8690, 151.1987, "pedestrian"⟩,
   ⟨"Pyrmont Bridge West", -33.8691, 151.1962, "pedestrian"⟩,
   ⟨"Fish Market", -33.8680, 151.1874, "pedestrian"⟩,
   ⟨"Walsh Bay", -33.8557, 151.2076, "pedestrian"⟩,
   ⟨"Powerhouse Museum", -33.8784, 151.1980, "pedestrian"⟩,
   ⟨"QVB", -33.8715, 151.2068, "pedestrian"⟩,
   ⟨"Museum Station", -33.8731, 151.2088, "pedestrian"⟩,
   ⟨"St James Station", -33.8696, 151.2111, "pedestrian"⟩,
   ⟨"Haymarket Light Rail", -33.8807, 151.2058, "pedestrian"⟩,
   ⟨"UTS Tower", -33.8830, 151.1997, "pedestrian"⟩,
   ⟨"USYD Gate City Rd", -33.8883, 151.1891, "pedestrian"⟩,
   ⟨"Chippendale Central Park", -33.8849, 151.2007, "pedestrian"⟩,
   ⟨"Moore Park", -33.8924, 151.2240, "pedestrian"⟩,
   ⟨"SCG", -33.8910, 151.2248, "pedestrian"⟩,
   ⟨"Star Casino", -33.8680, 151.1950, "pedestrian"⟩,
   ⟨"Walsh Bay Wharf 4/5", -33.8551, 151.2071, "pedestrian"⟩,
   ⟨"Cahill Expressway South", -33.8607, 151.2130, "traffic"⟩,
   ⟨"Cross City Tunnel East", -33.8722, 151.2194, "traffic"⟩,
   ⟨"Cross City Tunnel West", -33.8738, 151.1978, "traffic"⟩,
   ⟨"Harbour Tunnel South", -33.8469, 151.2129, "traffic"⟩,
   ⟨"M1 Gore Hill Entry", -33.8219, 151.1815, "traffic"⟩,
   ⟨"Western Distributor West", -33.8700, 151.1840, "traffic"⟩,
   ⟨"City West Link", -33.8767, 151.1599, "traffic"⟩,
   ⟨"Harbour Bridge North", -33.8485, 151.2107, "traffic"⟩,
   ⟨"Milsons Point Station", -33.8467, 151.2113, "pedestrian"⟩,
   ⟨"North Sydney Station", -33.8390, 151.2074, "pedestrian"⟩]

/-- The two stores `seed.seed_data` reads and writes, holding the current
schema's rows. -/
structure SeedDB where
  locations : List Location
  metrics : List Metric
  deriving DecidableEq, Repr

/-- The declarative constructor of `models.Metric` under the current
unified-count schema: keyword arguments must name mapped columns (`id`,
`location_id`, `timestamp`, `count`); the first keyword naming anything else
raises `TypeError` (SQLAlchemy's `_declarative_constructor`).  Columns not
passed keep their defaults (modelled as 0; integer-valued columns suffice
for every call site in this repository). -/
def Metric_construct (kwargs : List (String × ℤ)) : Except String Metric :=
  match kwargs.find? (fun kv =>
      !(["id", "location_id", "timestamp", "count"].contains kv.1)) with
  | some kv =>
      Except.error ("TypeError: '" ++ kv.1
        ++ "' is an invalid keyword argument for Metric")
  | none =>
      Except.ok
        { id := ((kwargs.lookup "id").getD 0).toNat,
          location_id := ((kwargs.lookup "location_id").getD 0).toNat,
          timestamp := (kwargs.lookup "timestamp").getD 0,
          count := (kwargs.lookup "count").getD 0 }

/-- The `seed.pseudo_hash` accumulator hash:
`h = (h * 131 + ord(ch)) & 0xFFFFFFFF` over the characters of `s`. -/
def pseudo_hash (s : String) : ℕ :=
  s.foldl (fun h c => (h * 131 + c.toNat) % 4294967296) 0

/-- The curated hotspot table of `seed.location_scalers`. -/
def base_hotspots : List (String × (ℚ × ℚ × ℚ)) :=
  [("Central Station", (1.8, 0.9, 1.2)),
   ("Town Hall", (1.6, 0.8, 1.15)),
   ("Wynyard Station", (1.55, 0.85, 1.1)),
   ("Circular Quay", (1.5, 0.75, 1.05)),
   ("Sydney Opera House", (1.7, 0.5, 1.25)),
   ("Harbour Bridge South", (0.7, 1.5, 1.0)),
   ("Harbour Bridge North", (0.65, 1.45, 0.95)),
   ("Anzac Bridge East", (0.4, 1.6, 0.9)),
   ("Western Distributor Ramp", (0.35, 1.55, 0.9))]

/-- The `seed.location_scalers` function: `(ped_scale, traffic_scale,
volatility)`, from the hotspot table when the name is curated, otherwise
derived from `pseudo_hash` of the name. -/
def location_scalers (name : String) (loc_type : String) : ℚ × ℚ × ℚ :=
  match base_hotspots.find? (fun p => p.1 = name) with
  | some p => p.2
  | none =>
      let h := pseudo_hash name
      if loc_type = "pedestrian" then
        (0.6 + ((h % 37 : ℕ) : ℚ) / 37 * 1.0,
         0.3 + ((h / 37 % 29 : ℕ) : ℚ) / 29 * 0.6,
         0.9 + ((h / 100 % 23 : ℕ) : ℚ) / 23 * 0.5)
      else
        (0.3 + ((h % 41 : ℕ) : ℚ) / 41 * 0.6,
         0.7 + ((h / 41 % 31 : ℕ) : ℚ) / 31 * 1.0,
         0.9 + ((h / 100 % 23 : ℕ) : ℚ) / 23 * 0.5)

/-- Character-level lowercase of a string (the strings involved are ASCII,
where Python's `str.lower` and `Char.toLower` agree). -/
def strLower (s : String) : List Char := s.data.map Char.toLower

/-- Does `hay` start with `needle`? -/
def startsList : List Char → List Char → Bool
  | [], _ => true
  | _ :: _, [] => false
  | a :: as, b :: bs => a = b && startsList as bs

/-- Python's `needle in hay` substring test. -/
def hasSub (needle : List Char) : List Char → Bool
  | [] => needle.isEmpty
  | c :: rest => startsList needle (c :: rest) || hasSub needle rest

/-- The `seed.is_major_hub` keyword test. -/
def is_major_hub (name : String) : Bool :=
  let keywords := ["Station", "Opera House", "Town Hall", "Central", "Wynyard",
    "Harbour Bridge", "Anzac", "SCG", "Casino", "USYD", "UTS"]
  let lowered := strLower name
  keywords.any (fun k => hasSub (strLower k) lowered)

/-- The `seed.gaussian_peak` function,
`exp(-((x - mean) ** 2) / (2 * sigma ** 2))`, with `exp` an oracle for
`math.exp`.  When `2 * sigma ** 2 == 0` the Python division raises
`ZeroDivisionError`; that failure is the `none` branch. -/
def gaussian_peak (exp : ℚ → ℚ) (x mean sigma : ℚ) : Option ℚ :=
  if 2 * sigma ^ 2 = 0 then none
  else some (exp (-((x - mean) ^ 2) / (2 * sigma ^ 2)))

/-- Weekend modulation of `seed.seed_data` (lines 116-120):
on Saturday/Sunday (`weekday >= 5`, with `0=Mon .. 6=Sun`), pedestrian
values are boosted by 1.15 in the 10..20 band and damped by 0.9 otherwise,
and traffic values are damped by 0.7 in the 7..10 and 16..19 commute bands
and by 0.85 otherwise. -/
def weekend_adjust (weekday hour : ℤ) (ped_val traffic_val : ℚ) : ℚ × ℚ :=
  if 5 ≤ weekday then
    (ped_val * (if 10 ≤ hour ∧ hour ≤ 20 then 1.15 else 0.9),
     traffic_val *
       (if (7 ≤ hour ∧ hour ≤ 10) ∨ (16 ≤ hour ∧ hour ≤ 19) then 0.7 else 0.85))
  else (ped_val, traffic_val)

/-- Late-night damping of `seed.seed_data` (lines 123-124):
for `hour < 5`, pedestrian ×0.4 and traffic ×0.55. -/
def late_night_adjust (hour : ℤ) (ped_val traffic_val : ℚ) : ℚ × ℚ :=
  if hour < 5 then (ped_val * 0.4, traffic_val * 0.55) else (ped_val, traffic_val)

/-- One hour of `seed.seed_data`'s inner loop for one location.  Timestamps
are in hours, so `ts.hour` is `ts % 24` and `ts.weekday()` is
`(ts / 24) % 7`.  `random.gauss(0, s)` is modelled as `s` times an oracle
draw, `random.random()` as an oracle draw, and `random.uniform(a, b)` as
`a + (b - a)` times an oracle draw; the oracle `noise` is indexed by
(location index, hour, call site).  The `sigma` arguments of
`gaussian_peak` are nonzero literals, so the `Option.getD 0` never takes
its default.  `int(max(v, 0))` truncates a nonnegative float, i.e. floors
it. -/
def seedHourCounts (exp : ℚ → ℚ) (noise : ℕ → ℕ → ℕ → ℚ) (locIdx : ℕ)
    (name : String) (scalers : ℚ × ℚ × ℚ) (now : ℤ) (h : ℕ) : ℤ × ℤ × ℤ :=
  let ts : ℤ := now - h
  let hour : ℤ := ts % 24
  let weekday : ℤ := (ts / 24) % 7
  let gp := fun mean sigma => (gaussian_peak exp (hour : ℚ) mean sigma).getD 0
  let ped_curve := 0.10 + 0.55 * gp 13 3.5 + 0.40 * gp 18 3.0
    + 0.18 * gp 8 2.5 + 0.08 * gp 22 2.0
  let traffic_curve := 0.12 + 0.80 * gp 8 1.8 + 0.70 * gp 17 2.0
    + 0.20 * gp 12 3.5
  let base_ped := 120 + 1300 * min ped_curve 1
  let base_traffic := 200 + 2000 * min traffic_curve 1
  let pv₀ := base_ped * scalers.1
  let tv₀ := base_traffic * scalers.2.1
  let wk := weekend_adjust weekday hour pv₀ tv₀
  let ln := late_night_adjust hour wk.1 wk.2
  let pv₁ := ln.1 + ln.1 * 0.08 * scalers.2.2 * noise locIdx h 0
  let tv₁ := ln.2 + ln.2 * 0.06 * scalers.2.2 * noise locIdx h 1
  let surged :=
    if is_major_hub name && decide (noise locIdx h 2 < 0.01) then
      let surge_factor := 1.4 + (2.2 - 1.4) * noise locIdx h 3
      (pv₁ * surge_factor, tv₁ * (1 + (surge_factor - 1) * 0.35))
    else (pv₁, tv₁)
  (ts, ⌊max surged.1 0⌋, ⌊max surged.2 0⌋)

/-- The hour offsets of `seed.seed_data`'s inner loop,
`range(hours, 0, -1) = [hours, hours-1, ..., 1]`. -/
def hourList (hours : ℕ) : List ℕ :=
  (List.range hours).map (fun i => hours - i)

/-- The `seed.seed_data` generator against the current `models.Metric`
schema.  It returns the stores unchanged when the location store is
nonempty.  Otherwise it adds one `Location` per `SEED_LOCATIONS` entry (ids
assigned sequentially by `session.flush`; the `Location(**loc)` keywords all
name mapped columns, so that constructor succeeds) and then, per location
and per hour offset in `range(hours, 0, -1)`, computes the hourly counts and
calls the `models.Metric` constructor with the keyword arguments seed.py
passes — `location_id=`, `timestamp=`, `pedestrian_count=`,
`traffic_count=`.  Under the unified-count schema that call raises
`TypeError`; the exception propagates out of `seed_data` before
`session.commit`, so the uncommitted pending rows are discarded and no
observation is ever generated.  `now` is the caller's current hour; the
Python default for `hours` is `24 * 7`. -/
def seed_data (exp : ℚ → ℚ) (noise : ℕ → ℕ → ℕ → ℚ) (db : SeedDB) (now : ℤ)
    (hours : ℕ := 24 * 7) : Except String SeedDB :=
  if 0 < db.locations.length then Except.ok db
  else do
    let metss ← SEED_LOCATIONS.enum.mapM (fun p =>
      let scalers := location_scalers p.2.name p.2.type
      (hourList hours).mapM (fun h =>
        let v := seedHourCounts exp noise p.1 p.2.name scalers now h
        Metric_construct [("location_id", ((p.1 + 1 : ℕ) : ℤ)),
          ("timestamp", v.1), ("pedestrian_count", v.2.1),
          ("traffic_count", v.2.2)]))
    Except.ok
      { locations := db.locations ++ SEED_LOCATIONS.enum.map (fun p =>
          { id := p.1 + 1, name := p.2.name, latitude := p.2.latitude,
            longitude := p.2.longitude, type := p.2.type }),
        metrics := db.metrics ++ metss.flatten }

/-- The `crud.get_metrics_for_type` query: join metrics to locations, filter
to the given `type` and `timestamp >= since`, group by timestamp, sum the
counts, order ascending by timestamp.  (`int(r[1] or 0)`: the SQL sum of a
group is never NULL here since every group is nonempty and `count` is a
non-nullable column, so the coercion is the identity.) -/
def get_metrics_for_type (locs : List Location) (metrics : List Metric)
    (type_value : String) (since : ℤ) : List (ℤ × ℤ) :=
  let pairs := (metrics.flatMap (fun m =>
      (locs.filter (fun l => l.id = m.location_id)).map (fun l => (m, l)))).filter
    (fun p => p.2.type = type_value ∧ since ≤ p.1.timestamp)
  let tss := ((pairs.map (fun p => p.1.timestamp)).toFinset).sort (· ≤ ·)
  tss.map (fun t =>
    (t, ((pairs.filter (fun p => p.1.timestamp = t)).map (fun p => p.1.count)).sum))

/-- Does a metric survive the join and WHERE clause of
`get_metrics_for_type`: its timestamp is at or after `since` and its owning
location (unique when location ids are) has the requested type. -/
def typeMatch (locs : List Location) (type_value : String) (since : ℤ)
    (m : Metric) : Bool :=
  decide (since ≤ m.timestamp) &&
    locs.any (fun l => decide (l.id = m.location_id) && decide (l.type = type_value))

/-- Concrete sample location (id 1). -/
def locA : Location := ⟨1, "Martin Pl", 0, 0, "pedestrian"⟩

/-- Concrete sample location (id 2). -/
def locB : Location := ⟨2, "Anzac Bridge", 1, 1, "traffic"⟩

/-- Sample metric: location 1, timestamp 0, count 0. -/
def metA : Metric := ⟨1, 1, 0, 0⟩

/-- Sample metric: location 1, timestamp 0, count 2000 (tied with `metA`). -/
def metB : Metric := ⟨2, 1, 0, 2000⟩

/-- Sample metric: location 1, timestamp -1, count 500. -/
def metC : Metric := ⟨3, 1, -1, 500⟩

/-- Sample traffic location (id 3). -/
def locT1 : Location := ⟨3, "Cross City Tunnel", 0, 0, "traffic"⟩

/-- Sample traffic location (id 4). -/
def locT2 : Location := ⟨4, "Harbour Tunnel", 0, 0, "traffic"⟩

/-- Sample metric: location 3, timestamp 5, count 300. -/
def metT1 : Metric := ⟨4, 3, 5, 300⟩

/-- Sample metric: location 4, timestamp 5, count 700. -/
def metT2 : Metric := ⟨5, 4, 5, 700⟩

/-! ## Properties of the rounding primitives -/

theorem rhe_eq_floor_or (x : ℚ) : rhe x = ⌊x⌋ ∨ rhe x = ⌊x⌋ + 1 := by
  unfold rhe
  split_ifs <;> simp

theorem rhe_le_add_half (x : ℚ) : (rhe x : ℚ) ≤ x + 1/2 := by
  have h1 := Int.floor_le x
  unfold rhe
  split_ifs <;> push_cast <;> linarith

theorem sub_half_le_rhe (x : ℚ) : x - 1/2 ≤ (rhe x : ℚ) := by
  have h1 := Int.floor_le x
  have h2 := Int.lt_floor_add_one x
  unfold rhe
  split_ifs <;> push_cast <;> linarith

theorem rhe_intCast (k : ℤ) : rhe (k : ℚ) = k := by
  unfold rhe
  rw [Int.floor_intCast]
  norm_num

theorem rhe_mono {x y : ℚ} (hxy : x ≤ y) : rhe x ≤ rhe y := by
  have hf : ⌊x⌋ ≤ ⌊y⌋ := Int.floor_mono hxy
  rcases eq_or_lt_of_le hf with heq | hlt
  · unfold rhe
    rw [← heq]
    have h1 := Int.floor_le x
    split_ifs <;> first | omega | (exfalso; push_cast at *; linarith)
  · have h1 : rhe x ≤ ⌊x⌋ + 1 := by rcases rhe_eq_floor_or x with h | h <;> omega
    have h2 : ⌊y⌋ ≤ rhe y := by rcases rhe_eq_floor_or y with h | h <;> omega
    omega

theorem abs_rhe_sub_le (x : ℚ) : |(rhe x : ℚ) - x| ≤ 1/2 := by
  rw [abs_le]
  constructor <;> linarith [rhe_le_add_half x, sub_half_le_rhe x]

theorem two_zpow_ne (n : ℤ) : ((2 : ℚ) ^ n) ≠ 0 := zpow_ne_zero n (by norm_num)

theorem two_zpow_pos (n : ℤ) : (0 : ℚ) < 2 ^ n := zpow_pos (by norm_num) n

theorem nfAbs_ge {q : ℚ} (hq : 0 < q) : (2 : ℚ) ^ (Int.log 2 q) ≤ nfAbs q := by
  have hlow : (2 : ℚ) ^ (Int.log 2 q) ≤ q := Int.zpow_log_le_self (by norm_num) hq
  have hx : ((2 ^ 52 : ℤ) : ℚ) ≤ q * 2 ^ ((52 : ℤ) - Int.log 2 q) := by
    have h2 : (2 : ℚ) ^ (Int.log 2 q) * 2 ^ ((52 : ℤ) - Int.log 2 q) = 2 ^ (52 : ℤ) := by
      rw [← zpow_add₀ (by norm_num : (2 : ℚ) ≠ 0)]
      norm_num
    calc ((2 ^ 52 : ℤ) : ℚ) = (2 : ℚ) ^ (52 : ℤ) := by norm_num
    _ = (2 : ℚ) ^ (Int.log 2 q) * 2 ^ ((52 : ℤ) - Int.log 2 q) := h2.symm
    _ ≤ q * 2 ^ ((52 : ℤ) - Int.log 2 q) :=
        mul_le_mul_of_nonneg_right hlow (two_zpow_pos _).le
  have hr : (2 ^ 52 : ℤ) ≤ rhe (q * 2 ^ ((52 : ℤ) - Int.log 2 q)) := by
    have := rhe_mono hx
    rwa [rhe_intCast] at this
  have hrq : ((2 : ℚ) ^ (52 : ℤ)) ≤ (rhe (q * 2 ^ ((52 : ℤ) - Int.log 2 q)) : ℚ) := by
    calc ((2 : ℚ) ^ (52 : ℤ)) = ((2 ^ 52 : ℤ) : ℚ) := by norm_num
    _ ≤ _ := by exact_mod_cast hr
  unfold nfAbs
  calc (2 : ℚ) ^ (Int.log 2 q)
      = (2 : ℚ) ^ (52 : ℤ) * 2 ^ (Int.log 2 q - 52) := by
        rw [← zpow_add₀ (by norm_num : (2 : ℚ) ≠ 0)]
        norm_num
  _ ≤ _ := mul_le_mul_of_nonneg_right hrq (two_zpow_pos _).le

theorem nfAbs_le {q : ℚ} (hq : 0 < q) : nfAbs q ≤ (2 : ℚ) ^ (Int.log 2 q + 1) := by
  have hup : q < (2 : ℚ) ^ (Int.log 2 q + 1) := Int.lt_zpow_succ_log_self (by norm_num) q
  have hx : q * 2 ^ ((52 : ℤ) - Int.log 2 q) < ((2 ^ 53 : ℤ) : ℚ) := by
    have h2 : (2 : ℚ) ^ (Int.log 2 q + 1) * 2 ^ ((52 : ℤ) - Int.log 2 q) = 2 ^ (53 : ℤ) := by
      rw [← zpow_add₀ (by norm_num : (2 : ℚ) ≠ 0),
        show Int.log 2 q + 1 + ((52 : ℤ) - Int.log 2 q) = 53 by ring]
    calc q * 2 ^ ((52 : ℤ) - Int.log 2 q)
        < (2 : ℚ) ^ (Int.log 2 q + 1) * 2 ^ ((52 : ℤ) - Int.log 2 q) :=
          mul_lt_mul_of_pos_right hup (two_zpow_pos _)
    _ = (2 : ℚ) ^ (53 : ℤ) := h2
    _ = ((2 ^ 53 : ℤ) : ℚ) := by norm_num
  have hr : rhe (q * 2 ^ ((52 : ℤ) - Int.log 2 q)) ≤ 2 ^ 53 := by
    have h1 := rhe_le_add_half (q * 2 ^ ((52 : ℤ) - Int.log 2 q))
    have h2 : (rhe (q * 2 ^ ((52 : ℤ) - Int.log 2 q)) : ℚ) < ((2 ^ 53 : ℤ) : ℚ) + 1 := by
      linarith
    have h3 : rhe (q * 2 ^ ((52 : ℤ) - Int.log 2 q)) < 2 ^ 53 + 1 := by exact_mod_cast h2
    omega
  have hrq : (rhe (q * 2 ^ ((52 : ℤ) - Int.log 2 q)) : ℚ) ≤ (2 : ℚ) ^ (53 : ℤ) := by
    calc (rhe (q * 2 ^ ((52 : ℤ) - Int.log 2 q)) : ℚ) ≤ ((2 ^ 53 : ℤ) : ℚ) := by
          exact_mod_cast hr
    _ = (2 : ℚ) ^ (53 : ℤ) := by norm_num
  unfold nfAbs
  calc (rhe (q * 2 ^ ((52 : ℤ) - Int.log 2 q)) : ℚ) * 2 ^ (Int.log 2 q - 52)
      ≤ (2 : ℚ) ^ (53 : ℤ) * 2 ^ (Int.log 2 q - 52) :=
        mul_le_mul_of_nonneg_right hrq (two_zpow_pos _).le
  _ = (2 : ℚ) ^ (Int.log 2 q + 1) := by
        rw [← zpow_add₀ (by norm_num : (2 : ℚ) ≠ 0),
          show (53 : ℤ) + (Int.log 2 q - 52) = Int.log 2 q + 1 by ring]

theorem nfAbs_err {q : ℚ} (hq : 0 < q) :
    |nfAbs q - q| ≤ (2 : ℚ) ^ (Int.log 2 q - 53) := by
  have hcancel : (2 : ℚ) ^ ((52 : ℤ) - Int.log 2 q) * 2 ^ (Int.log 2 q - 52) = 1 := by
    rw [← zpow_add₀ (by norm_num : (2 : ℚ) ≠ 0)]
    norm_num
  have hkey : nfAbs q - q
      = ((rhe (q * 2 ^ ((52 : ℤ) - Int.log 2 q)) : ℚ) - q * 2 ^ ((52 : ℤ) - Int.log 2 q))
        * 2 ^ (Int.log 2 q - 52) := by
    unfold nfAbs
    have : q * ((2 : ℚ) ^ ((52 : ℤ) - Int.log 2 q) * 2 ^ (Int.log 2 q - 52)) = q := by
      rw [hcancel, mul_one]
    ring_nf
    ring_nf at this
    linarith
  rw [hkey, abs_mul, abs_of_pos (two_zpow_pos (Int.log 2 q - 52))]
  calc |(rhe (q * 2 ^ ((52 : ℤ) - Int.log 2 q)) : ℚ) - q * 2 ^ ((52 : ℤ) - Int.log 2 q)|
        * 2 ^ (Int.log 2 q - 52)
      ≤ (1/2) * 2 ^ (Int.log 2 q - 52) :=
        mul_le_mul_of_nonneg_right (abs_rhe_sub_le _) (two_zpow_pos _).le
  _ = (2 : ℚ) ^ (Int.log 2 q - 53) := by
        rw [show Int.log 2 q - 53 = -1 + (Int.log 2 q - 52) by ring,
          zpow_add₀ (by norm_num : (2 : ℚ) ≠ 0)]
        norm_num

theorem nfAbs_pos {q : ℚ} (hq : 0 < q) : 0 < nfAbs q :=
  lt_of_lt_of_le (two_zpow_pos _) (nfAbs_ge hq)

theorem nfAbs_mono {q r : ℚ} (hq : 0 < q) (hqr : q ≤ r) : nfAbs q ≤ nfAbs r := by
  have hr0 : 0 < r := lt_of_lt_of_le hq hqr
  have hlog : Int.log 2 q ≤ Int.log 2 r := Int.log_mono_right hq hqr
  rcases eq_or_lt_of_le hlog with heq | hlt
  · have hx : q * 2 ^ ((52 : ℤ) - Int.log 2 q) ≤ r * 2 ^ ((52 : ℤ) - Int.log 2 q) :=
      mul_le_mul_of_nonneg_right hqr (two_zpow_pos _).le
    have hrr : (rhe (q * 2 ^ ((52 : ℤ) - Int.log 2 q)) : ℚ)
        ≤ (rhe (r * 2 ^ ((52 : ℤ) - Int.log 2 q)) : ℚ) := by
      exact_mod_cast rhe_mono hx
    unfold nfAbs
    rw [← heq]
    exact mul_le_mul_of_nonneg_right hrr (two_zpow_pos _).le
  · calc nfAbs q ≤ (2 : ℚ) ^ (Int.log 2 q + 1) := nfAbs_le hq
    _ ≤ (2 : ℚ) ^ (Int.log 2 r) := zpow_le_zpow_right₀ (by norm_num) (by omega)
    _ ≤ nfAbs r := nfAbs_ge hr0

theorem nearestFloat_zero : nearestFloat 0 = 0 := by
  simp [nearestFloat]

theorem nearestFloat_nonneg {q : ℚ} (h : 0 ≤ q) : 0 ≤ nearestFloat q := by
  unfold nearestFloat
  rcases eq_or_lt_of_le h with h0 | h0
  · simp [← h0]
  · rw [if_neg (by linarith), if_neg (by linarith)]
    exact (nfAbs_pos h0).le

theorem nearestFloat_neg {q : ℚ} (h : q < 0) : nearestFloat q < 0 := by
  unfold nearestFloat
  rw [if_neg (by linarith), if_pos h]
  simpa using nfAbs_pos (by linarith : (0 : ℚ) < -q)

theorem nearestFloat_mono {q r : ℚ} (hqr : q ≤ r) : nearestFloat q ≤ nearestFloat r := by
  rcases lt_trichotomy q 0 with hq | hq | hq
  · rcases lt_trichotomy r 0 with hr | hr | hr
    · unfold nearestFloat
      rw [if_neg (by linarith), if_pos hq, if_neg (by linarith), if_pos hr]
      have := nfAbs_mono (by linarith : (0 : ℚ) < -r) (by linarith : -r ≤ -q)
      linarith
    · rw [hr, nearestFloat_zero]
      exact (nearestFloat_neg hq).le
    · exact le_trans (nearestFloat_neg hq).le (nearestFloat_nonneg hr.le)
  · rw [hq, nearestFloat_zero]
    exact nearestFloat_nonneg (by linarith)
  · have hr : 0 < r := lt_of_lt_of_le hq hqr
    unfold nearestFloat
    rw [if_neg (by linarith), if_neg (by linarith), if_neg (by linarith),
      if_neg (by linarith)]
    exact nfAbs_mono hq hqr

theorem nearestFloat_err (q : ℚ) : |nearestFloat q - q| ≤ |q| / 2 ^ (53 : ℕ) := by
  have h2 : (0 : ℚ) < 2 ^ (53 : ℕ) := by positivity
  have key : ∀ p : ℚ, 0 < p → |nfAbs p - p| ≤ p / 2 ^ (53 : ℕ) := by
    intro p hp
    calc |nfAbs p - p| ≤ (2 : ℚ) ^ (Int.log 2 p - 53) := nfAbs_err hp
    _ = (2 : ℚ) ^ (Int.log 2 p) / 2 ^ (53 : ℕ) := by
        rw [show Int.log 2 p - 53 = Int.log 2 p + (-53) by ring,
          zpow_add₀ (by norm_num : (2 : ℚ) ≠ 0)]
        norm_num
        ring
    _ ≤ p / 2 ^ (53 : ℕ) :=
        (div_le_div_right h2).mpr (Int.zpow_log_le_self (by norm_num) hp)
  rcases lt_trichotomy q 0 with hq | hq | hq
  · have h0 : 0 < -q := by linarith
    have hval : nearestFloat q = -nfAbs (-q) := by
      unfold nearestFloat
      rw [if_neg (by linarith), if_pos hq]
    calc |nearestFloat q - q| = |nfAbs (-q) - (-q)| := by
          rw [hval, show -nfAbs (-q) - q = -(nfAbs (-q) - (-q)) by ring, abs_neg]
    _ ≤ (-q) / 2 ^ (53 : ℕ) := key (-q) h0
    _ = |q| / 2 ^ (53 : ℕ) := by rw [abs_of_neg hq]
  · rw [hq, nearestFloat_zero]
    norm_num
  · have hval : nearestFloat q = nfAbs q := by
      unfold nearestFloat
      rw [if_neg (by linarith), if_neg (by linarith)]
    rw [hval, abs_of_pos hq]
    exact key q hq


theorem int_log_eq {q : ℚ} {e : ℤ} (hq : 0 < q) (h1 : (2:ℚ) ^ e ≤ q)
    (h2 : q < 2 ^ (e + 1)) : Int.log 2 q = e := by
  have h1' : ((2:ℕ):ℚ) ^ e ≤ q := by exact_mod_cast h1
  have h2' : q < ((2:ℕ):ℚ) ^ (e + 1) := by exact_mod_cast h2
  have ha := (Int.zpow_le_iff_le_log (by norm_num) hq).mp h1'
  have hb := (Int.lt_zpow_iff_log_lt (by norm_num) hq).mp h2'
  omega

theorem rhe_eq_of_lt {x : ℚ} {n : ℤ} (h1 : (n:ℚ) ≤ x) (h2 : x < n + 1/2) : rhe x = n := by
  have hf : ⌊x⌋ = n := by
    rw [Int.floor_eq_iff]
    exact ⟨h1, by push_cast; linarith⟩
  unfold rhe
  rw [hf, if_pos (by linarith)]

theorem rhe_eq_of_gt {x : ℚ} {n : ℤ} (h1 : (n:ℚ) + 1/2 < x) (h2 : x < n + 1) :
    rhe x = n + 1 := by
  have hf : ⌊x⌋ = n := by
    rw [Int.floor_eq_iff]
    exact ⟨by linarith, by push_cast; linarith⟩
  unfold rhe
  rw [hf, if_neg (by linarith), if_pos (by linarith)]

theorem nfAbs_one : nfAbs 1 = 1 := by
  have hlog : Int.log 2 (1:ℚ) = 0 := int_log_eq (by norm_num) (by norm_num) (by norm_num)
  unfold nfAbs
  rw [hlog]
  rw [show (1:ℚ) * 2 ^ ((52:ℤ) - 0) = ((4503599627370496:ℤ):ℚ) by norm_num, rhe_intCast]
  norm_num

theorem nearestFloat_one : nearestFloat 1 = 1 := by
  unfold nearestFloat
  rw [if_neg one_ne_zero, if_neg (by norm_num)]
  exact nfAbs_one

theorem nearestFloat_le_one {q : ℚ} (h : q ≤ 1) : nearestFloat q ≤ 1 := by
  have := nearestFloat_mono h
  rwa [nearestFloat_one] at this

theorem one_le_nearestFloat {q : ℚ} (h : 1 ≤ q) : 1 ≤ nearestFloat q := by
  have := nearestFloat_mono h
  rwa [nearestFloat_one] at this

theorem pyRound3_zero : pyRound3 0 = 0 := by
  unfold pyRound3
  rw [show (0:ℚ) * 1000 = ((0:ℤ):ℚ) by norm_num, rhe_intCast]
  norm_num

theorem pyRound3_one : pyRound3 1 = 1 := by
  unfold pyRound3
  rw [show (1:ℚ) * 1000 = ((1000:ℤ):ℚ) by norm_num, rhe_intCast]
  norm_num

theorem pyRound3_mono {x y : ℚ} (h : x ≤ y) : pyRound3 x ≤ pyRound3 y := by
  unfold pyRound3
  have h1 := rhe_mono (mul_le_mul_of_nonneg_right h (by norm_num : (0:ℚ) ≤ 1000))
  have h2 : ((rhe (x * 1000)) : ℚ) ≤ ((rhe (y * 1000)) : ℚ) := by exact_mod_cast h1
  linarith

theorem pyRound3_err (x : ℚ) : |pyRound3 x - x| ≤ 1/2000 := by
  have h := abs_rhe_sub_le (x * 1000)
  unfold pyRound3
  rw [show (rhe (x * 1000) : ℚ)/1000 - x = ((rhe (x * 1000) : ℚ) - x * 1000)/1000 by ring,
    abs_div, abs_of_pos (by norm_num : (0:ℚ) < 1000)]
  linarith

theorem pyRound3_neg_of_lt {x : ℚ} (h : x < -(1/2000)) : pyRound3 x < 0 := by
  have h1 := rhe_le_add_half (x * 1000)
  have h2 : (rhe (x * 1000) : ℚ) < 0 := by linarith
  unfold pyRound3
  exact div_neg_of_neg_of_pos h2 (by norm_num)

theorem compute_intensity_mono {a b : ℤ} (h : a ≤ b) :
    compute_intensity a ≤ compute_intensity b := by
  unfold compute_intensity
  apply pyRound3_mono
  apply min_le_min _ le_rfl
  apply nearestFloat_mono
  have hc : ((a:ℚ)) ≤ (b:ℚ) := by exact_mod_cast h
  linarith

theorem compute_intensity_zero : compute_intensity 0 = 0 := by
  unfold compute_intensity
  rw [show ((0:ℤ):ℚ)/2000 = 0 by norm_num, nearestFloat_zero,
    min_eq_left (by norm_num : (0:ℚ) ≤ 1)]
  exact pyRound3_zero

theorem compute_intensity_sat {count : ℤ} (h : 2000 ≤ count) :
    compute_intensity count = 1 := by
  unfold compute_intensity
  have hc : (2000:ℚ) ≤ (count:ℚ) := by exact_mod_cast h
  have h1 : (1:ℚ) ≤ (count:ℚ)/2000 := by
    rw [le_div_iff (by norm_num : (0:ℚ) < 2000)]
    linarith
  rw [min_eq_right (one_le_nearestFloat h1)]
  exact pyRound3_one

/-- C2: for every non-negative count, `compute_intensity` lies in `[0, 1]`,
is a multiple of 1/1000 within half a thousandth (plus one binary64 ulp) of
`min(count / 2000, 1)` — i.e. it is that value rounded to 3 decimal digits —
is monotonically non-decreasing in the count, maps 0 to 0.0, and maps every
count ≥ 2000 to 1.0. -/
theorem compute_intensity_score_props (count : ℤ) (hc : 0 ≤ count) :
    0 ≤ compute_intensity count ∧
    compute_intensity count ≤ 1 ∧
    (∃ k : ℤ, compute_intensity count = (k : ℚ) / 1000) ∧
    |compute_intensity count - min ((count : ℚ) / 2000) 1| ≤ 1/2000 + 1/2^52 ∧
    (∀ d : ℤ, count ≤ d → compute_intensity count ≤ compute_intensity d) ∧
    compute_intensity 0 = 0 ∧
    (2000 ≤ count → compute_intensity count = 1) := by
  have hcq : (0:ℚ) ≤ (count:ℚ) := by exact_mod_cast hc
  have hq0 : (0:ℚ) ≤ (count:ℚ)/2000 := div_nonneg hcq (by norm_num)
  have hmin0 : (0:ℚ) ≤ min (nearestFloat ((count:ℚ)/2000)) 1 :=
    le_min (nearestFloat_nonneg hq0) (by norm_num)
  refine ⟨?_, ?_, ?_, ?_, ?_, compute_intensity_zero, fun h => compute_intensity_sat h⟩
  · calc (0:ℚ) = pyRound3 0 := pyRound3_zero.symm
    _ ≤ compute_intensity count := pyRound3_mono hmin0
  · calc compute_intensity count
        ≤ pyRound3 1 := pyRound3_mono (min_le_right _ _)
    _ = 1 := pyRound3_one
  · exact ⟨rhe (min (nearestFloat ((count:ℚ)/2000)) 1 * 1000), rfl⟩
  · by_cases h2000 : 2000 ≤ count
    · have hc2 : (2000:ℚ) ≤ (count:ℚ) := by exact_mod_cast h2000
      have h1 : (1:ℚ) ≤ (count:ℚ)/2000 := by
        rw [le_div_iff (by norm_num : (0:ℚ) < 2000)]
        linarith
      rw [compute_intensity_sat h2000, min_eq_right h1]
      norm_num
    · push_neg at h2000
      have hcq2 : (count:ℚ) < 2000 := by exact_mod_cast h2000
      have hqlt : (count:ℚ)/2000 < 1 := by
        rw [div_lt_one (by norm_num : (0:ℚ) < 2000)]
        linarith
      have hmin1 : min (nearestFloat ((count:ℚ)/2000)) 1 = nearestFloat ((count:ℚ)/2000) :=
        min_eq_left (nearestFloat_le_one hqlt.le)
      have hmin2 : min ((count:ℚ)/2000) 1 = (count:ℚ)/2000 := min_eq_left hqlt.le
      unfold compute_intensity
      rw [hmin1, hmin2]
      have herr := nearestFloat_err ((count:ℚ)/2000)
      rw [abs_of_nonneg hq0] at herr
      calc |pyRound3 (nearestFloat ((count:ℚ)/2000)) - (count:ℚ)/2000|
          ≤ |pyRound3 (nearestFloat ((count:ℚ)/2000)) - nearestFloat ((count:ℚ)/2000)|
            + |nearestFloat ((count:ℚ)/2000) - (count:ℚ)/2000| := abs_sub_le _ _ _
      _ ≤ 1/2000 + ((count:ℚ)/2000) / 2 ^ (53:ℕ) := add_le_add (pyRound3_err _) herr
      _ ≤ 1/2000 + 1/2^52 := by
          have h9 : ((count:ℚ)/2000) / 2 ^ (53:ℕ) ≤ 1 / 2 ^ (53:ℕ) := by
            gcongr
          have h10 : (1:ℚ) / 2 ^ (53:ℕ) ≤ 1/2^52 := by norm_num
          linarith
  · exact fun d hd => compute_intensity_mono hd

/-- Witness for C2 at `count = 500` (the spec scenario: 500/2000 → 0.25). -/
theorem compute_intensity_score_props_witness :
    (0:ℤ) ≤ 500 ∧ 0 ≤ compute_intensity 500 ∧ compute_intensity 500 ≤ 1 :=
  ⟨by decide, (compute_intensity_score_props 500 (by decide)).1,
    (compute_intensity_score_props 500 (by decide)).2.1⟩

/-- C10: for every negative count, `compute_intensity` skips the upper clamp
(`min` picks the count branch, so the result equals `round(count / 2000, 3)`)
and returns a strictly negative intensity: the output is clamped only at the
upper bound 1.0, not at the lower bound 0. -/
theorem compute_intensity_no_lower_clamp (count : ℤ) (hc : count < 0) :
    compute_intensity count = pyRound3 (nearestFloat ((count : ℚ) / 2000)) ∧
    compute_intensity count < 0 := by
  have hcq : ((count:ℚ)) < 0 := by exact_mod_cast hc
  have hq : ((count:ℚ))/2000 < 0 := div_neg_of_neg_of_pos hcq (by norm_num)
  have hnf := nearestFloat_neg hq
  have heq : compute_intensity count = pyRound3 (nearestFloat ((count:ℚ)/2000)) := by
    unfold compute_intensity
    rw [min_eq_left (by linarith)]
  refine ⟨heq, ?_⟩
  rw [heq]
  apply pyRound3_neg_of_lt
  rcases (by omega : count = -1 ∨ count ≤ -2) with h1 | h2
  · subst h1
    have hlog : Int.log 2 ((1:ℚ)/2000) = -11 :=
      int_log_eq (by norm_num) (by norm_num) (by norm_num)
    have hrhe : rhe ((1:ℚ)/2000 * 2 ^ ((52:ℤ) - -11)) = 4611686018427388 := by
      rw [show ((1:ℚ)/2000 * 2 ^ ((52:ℤ) - -11)) = 9223372036854775808/2000 by norm_num]
      have h3 := rhe_eq_of_gt
        (show ((4611686018427387:ℤ):ℚ) + 1/2 < 9223372036854775808/2000 by norm_num)
        (show (9223372036854775808:ℚ)/2000 < (4611686018427387:ℤ) + 1 by norm_num)
      omega
    have hnfval : nearestFloat (((-1:ℤ):ℚ)/2000) = -(4611686018427388 * 2 ^ ((-11:ℤ) - 52)) := by
      unfold nearestFloat
      rw [if_neg (by norm_num), if_pos (by norm_num)]
      unfold nfAbs
      rw [show -((((-1:ℤ)):ℚ)/2000) = (1:ℚ)/2000 by norm_num, hlog, hrhe]
      norm_num
    rw [hnfval]
    norm_num
  · have hcq2 : ((count:ℚ)) ≤ -2 := by exact_mod_cast h2
    have hq2 : ((count:ℚ))/2000 ≤ -(1/1000) := by
      rw [div_le_iff (by norm_num : (0:ℚ) < 2000)]
      linarith
    have herr := nearestFloat_err ((count:ℚ)/2000)
    rw [abs_of_neg hq] at herr
    have h4 : nearestFloat ((count:ℚ)/2000) - (count:ℚ)/2000
        ≤ -((count:ℚ)/2000) / 2 ^ (53:ℕ) :=
      le_trans (le_abs_self _) herr
    have hmul : ((count:ℚ)/2000) * (1 - 1/2^(53:ℕ)) ≤ (-(1/1000)) * (1 - 1/2^(53:ℕ)) :=
      mul_le_mul_of_nonneg_right hq2 (by norm_num)
    have hring : (count:ℚ)/2000 - ((count:ℚ)/2000) / 2 ^ (53:ℕ)
        = ((count:ℚ)/2000) * (1 - 1/2^(53:ℕ)) := by ring
    have hfin : (-(1/1000):ℚ) * (1 - 1/2^(53:ℕ)) < -(1/2000) := by norm_num
    linarith

/-- Witness for C10 at `count = -1` (Python: `round(-1/2000.0, 3) = -0.001`). -/
theorem compute_intensity_no_lower_clamp_witness :
    (-1:ℤ) < 0 ∧
    (compute_intensity (-1) = pyRound3 (nearestFloat (((-1:ℤ) : ℚ) / 2000)) ∧
      compute_intensity (-1) < 0) :=
  ⟨by decide, compute_intensity_no_lower_clamp (-1) (by decide)⟩

/-! ## Association-list lemmas for the GROUP BY subquery -/

theorem mem_insertMaxTs {lid : ℕ} {ts : ℤ} {l : List (ℕ × ℤ)} {q : ℕ × ℤ}
    (hq : q ∈ insertMaxTs lid ts l) : q ∈ l ∨ q.1 = lid := by
  induction l with
  | nil =>
      simp only [insertMaxTs, List.mem_singleton] at hq
      right
      rw [hq]
  | cons p rest ih =>
      by_cases h : p.1 = lid
      · simp only [insertMaxTs, if_pos h] at hq
        rcases List.mem_cons.mp hq with h1 | h1
        · right
          rw [h1]
          exact h
        · exact Or.inl (List.mem_cons_of_mem _ h1)
      · simp only [insertMaxTs, if_neg h] at hq
        rcases List.mem_cons.mp hq with h1 | h1
        · exact Or.inl (h1 ▸ List.mem_cons_self _ _)
        · rcases ih h1 with h2 | h2
          · exact Or.inl (List.mem_cons_of_mem _ h2)
          · exact Or.inr h2

theorem insertMaxTs_keys_nodup {lid : ℕ} {ts : ℤ} {l : List (ℕ × ℤ)}
    (h : (l.map Prod.fst).Nodup) : ((insertMaxTs lid ts l).map Prod.fst).Nodup := by
  induction l with
  | nil => simp [insertMaxTs]
  | cons p rest ih =>
      simp only [List.map_cons, List.nodup_cons] at h
      by_cases hpl : p.1 = lid
      · simp only [insertMaxTs, if_pos hpl, List.map_cons, List.nodup_cons]
        exact ⟨h.1, h.2⟩
      · simp only [insertMaxTs, if_neg hpl, List.map_cons, List.nodup_cons]
        refine ⟨?_, ih h.2⟩
        intro hmem
        rcases List.mem_map.mp hmem with ⟨q, hq, hq1⟩
        rcases mem_insertMaxTs hq with h2 | h2
        · apply h.1
          have h3 := List.mem_map_of_mem Prod.fst h2
          rwa [hq1] at h3
        · exact hpl (by rw [← hq1, h2])

theorem insertMaxTs_val {lid : ℕ} {ts : ℤ} {l : List (ℕ × ℤ)}
    (hnd : (l.map Prod.fst).Nodup) {q : ℕ × ℤ}
    (hq : q ∈ insertMaxTs lid ts l) (hkey : q.1 = lid) :
    (lid ∉ l.map Prod.fst ∧ q.2 = ts) ∨ (∃ t', (lid, t') ∈ l ∧ q.2 = max t' ts) := by
  induction l with
  | nil =>
      simp only [insertMaxTs, List.mem_singleton] at hq
      left
      refine ⟨by simp, ?_⟩
      rw [hq]
  | cons p rest ih =>
      simp only [List.map_cons, List.nodup_cons] at hnd
      by_cases h : p.1 = lid
      · simp only [insertMaxTs, if_pos h] at hq
        rcases List.mem_cons.mp hq with h1 | h1
        · right
          refine ⟨p.2, ?_, by rw [h1]⟩
          have hp : (lid, p.2) = p := by
            rw [← h]
          rw [hp]
          exact List.mem_cons_self _ _
        · exfalso
          apply hnd.1
          have h3 := List.mem_map_of_mem Prod.fst h1
          rwa [hkey, ← h] at h3
      · simp only [insertMaxTs, if_neg h] at hq
        rcases List.mem_cons.mp hq with h1 | h1
        · exact absurd (by rw [← h1]; exact hkey) h
        · rcases ih hnd.2 h1 with ⟨hnin, hval⟩ | ⟨t', ht', hval⟩
          · left
            refine ⟨?_, hval⟩
            simp only [List.map_cons, List.mem_cons]
            rintro (h2 | h2)
            · exact h h2.symm
            · exact hnin h2
          · exact Or.inr ⟨t', List.mem_cons_of_mem _ ht', hval⟩

theorem insertMaxTs_self {lid : ℕ} {ts : ℤ} (l : List (ℕ × ℤ)) :
    ∃ t, (lid, t) ∈ insertMaxTs lid ts l ∧ ts ≤ t := by
  induction l with
  | nil => exact ⟨ts, by simp [insertMaxTs], le_refl ts⟩
  | cons p rest ih =>
      by_cases h : p.1 = lid
      · refine ⟨max p.2 ts, ?_, le_max_right _ _⟩
        simp only [insertMaxTs, if_pos h, h]
        exact List.mem_cons_self _ _
      · rcases ih with ⟨t, ht, hle⟩
        refine ⟨t, ?_, hle⟩
        simp only [insertMaxTs, if_neg h]
        exact List.mem_cons_of_mem _ ht

theorem insertMaxTs_mono_val {lid₀ : ℕ} {ts₀ : ℤ} {l : List (ℕ × ℤ)} {lid : ℕ} {t : ℤ}
    (h : (lid, t) ∈ l) : ∃ t', (lid, t') ∈ insertMaxTs lid₀ ts₀ l ∧ t ≤ t' := by
  induction l with
  | nil => simp at h
  | cons p rest ih =>
      by_cases hpl : p.1 = lid₀
      · rcases List.mem_cons.mp h with h1 | h1
        · refine ⟨max p.2 ts₀, ?_, ?_⟩
          · simp only [insertMaxTs, if_pos hpl]
            have : (lid, max p.2 ts₀) = (p.1, max p.2 ts₀) := by
              rw [show p.1 = lid from by rw [← h1]]
            rw [this]
            exact List.mem_cons_self _ _
          · have : t = p.2 := by rw [← h1]
            rw [this]
            exact le_max_left _ _
        · refine ⟨t, ?_, le_refl t⟩
          simp only [insertMaxTs, if_pos hpl]
          exact List.mem_cons_of_mem _ h1
      · rcases List.mem_cons.mp h with h1 | h1
        · refine ⟨t, ?_, le_refl t⟩
          simp only [insertMaxTs, if_neg hpl]
          exact h1 ▸ List.mem_cons_self _ _
        · rcases ih h1 with ⟨t', ht', hle⟩
          refine ⟨t', ?_, hle⟩
          simp only [insertMaxTs, if_neg hpl]
          exact List.mem_cons_of_mem _ ht'

theorem groupMaxTs_keys_nodup (ms : List Metric) :
    ((groupMaxTs ms).map Prod.fst).Nodup := by
  induction ms with
  | nil => simp [groupMaxTs]
  | cons m rest ih =>
      simp only [groupMaxTs]
      exact insertMaxTs_keys_nodup ih

theorem groupMaxTs_complete {ms : List Metric} {m : Metric} (hm : m ∈ ms) :
    ∃ t, (m.location_id, t) ∈ groupMaxTs ms ∧ m.timestamp ≤ t := by
  induction ms with
  | nil => simp at hm
  | cons m₀ rest ih =>
      simp only [groupMaxTs]
      rcases List.mem_cons.mp hm with h1 | h1
      · rcases insertMaxTs_self (groupMaxTs rest) with ⟨t, ht, hle⟩
        exact ⟨t, by rw [h1]; exact ht, by rw [h1]; exact hle⟩
      · rcases ih h1 with ⟨t, ht, hle⟩
        rcases insertMaxTs_mono_val ht with ⟨t', ht', hle'⟩
        exact ⟨t', ht', le_trans hle hle'⟩

theorem groupMaxTs_sound {ms : List Metric} {p : ℕ × ℤ} (hp : p ∈ groupMaxTs ms) :
    (∃ m ∈ ms, m.location_id = p.1 ∧ m.timestamp = p.2) ∧
    (∀ m ∈ ms, m.location_id = p.1 → m.timestamp ≤ p.2) := by
  induction ms generalizing p with
  | nil => simp [groupMaxTs] at hp
  | cons m rest ih =>
      simp only [groupMaxTs] at hp
      by_cases hkey : p.1 = m.location_id
      · rcases insertMaxTs_val (groupMaxTs_keys_nodup rest) hp hkey with
          ⟨hnin, hval⟩ | ⟨t', ht', hval⟩
        · constructor
          · exact ⟨m, List.mem_cons_self _ _, hkey.symm, hval.symm⟩
          · intro m' hm' hl
            rcases List.mem_cons.mp hm' with h1 | h1
            · rw [h1, hval]
            · exfalso
              rcases groupMaxTs_complete h1 with ⟨t, ht, _⟩
              apply hnin
              have h3 := List.mem_map_of_mem Prod.fst ht
              rwa [hl, hkey] at h3
        · rcases ih ht' with ⟨⟨m', hm', hl', ht''⟩, hbound⟩
          constructor
          · rcases le_total t' m.timestamp with hc | hc
            · refine ⟨m, List.mem_cons_self _ _, hkey.symm, ?_⟩
              rw [hval, max_eq_right hc]
            · refine ⟨m', List.mem_cons_of_mem _ hm', by rw [hl', hkey], ?_⟩
              rw [hval, max_eq_left hc, ht'']
          · intro mx hmx hlx
            rcases List.mem_cons.mp hmx with h1 | h1
            · rw [h1, hval]
              exact le_max_right _ _
            · have := hbound mx h1 (by rw [hlx, hkey])
              rw [hval]
              exact le_trans this (le_max_left _ _)
      · have hp' : p ∈ groupMaxTs rest := by
          rcases mem_insertMaxTs hp with h1 | h1
          · exact h1
          · exact absurd h1 hkey
        rcases ih hp' with ⟨⟨m', hm', hl', ht''⟩, hbound⟩
        constructor
        · exact ⟨m', List.mem_cons_of_mem _ hm', hl', ht''⟩
        · intro mx hmx hlx
          rcases List.mem_cons.mp hmx with h1 | h1
          · exact absurd (by rw [← h1, hlx]) hkey
          · exact hbound mx h1 hlx

theorem filter_key_eq {l : List (ℕ × ℤ)} (hnd : (l.map Prod.fst).Nodup) {lid : ℕ} {t : ℤ}
    (hmem : (lid, t) ∈ l) : l.filter (fun p => p.1 = lid) = [(lid, t)] := by
  induction l with
  | nil => simp at hmem
  | cons p rest ih =>
      simp only [List.map_cons, List.nodup_cons] at hnd
      rcases List.mem_cons.mp hmem with h1 | h1
      · have hp : p.1 = lid := by rw [← h1]
        rw [List.filter_cons, if_pos (by simp [hp])]
        have hrest : rest.filter (fun p => p.1 = lid) = [] := by
          rw [List.filter_eq_nil_iff]
          intro q hq hql
          apply hnd.1
          have h3 := List.mem_map_of_mem Prod.fst hq
          simp only [decide_eq_true_eq] at hql
          rwa [hp, ← hql]
        rw [hrest, ← h1]
      · have hp : p.1 ≠ lid := by
          intro hc
          apply hnd.1
          have h3 := List.mem_map_of_mem Prod.fst h1
          rwa [← hc] at h3
        rw [List.filter_cons, if_neg (by simp [hp])]
        exact ih hnd.2 h1

theorem filter_key_nil {l : List (ℕ × ℤ)} {lid : ℕ}
    (h : ∀ t, (lid, t) ∉ l) : l.filter (fun p => p.1 = lid) = [] := by
  rw [List.filter_eq_nil_iff]
  intro q hq hql
  simp only [decide_eq_true_eq] at hql
  exact h q.2 (by rw [← hql]; exact hq)

theorem countP_flatMap {α β : Type} (p : β → Bool) (f : α → List β) (l : List α) :
    (l.flatMap f).countP p = (l.map (fun a => (f a).countP p)).sum := by
  induction l with
  | nil => simp
  | cons a rest ih => simp [List.flatMap_cons, List.countP_append, ih]

theorem two_le_countP {α : Type} {p : α → Bool} {l : List α} {a b : α}
    (ha : a ∈ l) (hb : b ∈ l) (hne : a ≠ b) (hpa : p a) (hpb : p b) :
    2 ≤ l.countP p := by
  induction l with
  | nil => simp at ha
  | cons x rest ih =>
      rcases List.mem_cons.mp ha with h1 | h1 <;> rcases List.mem_cons.mp hb with h2 | h2
      · exact absurd (h1.trans h2.symm) hne
      · have h3 : 0 < rest.countP p := List.countP_pos_iff.mpr ⟨b, h2, hpb⟩
        rw [List.countP_cons, if_pos (h1 ▸ hpa)]
        omega
      · have h3 : 0 < rest.countP p := List.countP_pos_iff.mpr ⟨a, h1, hpa⟩
        rw [List.countP_cons, if_pos (h2 ▸ hpb)]
        omega
      · have h3 := ih h1 h2
        rw [List.countP_cons]
        omega

theorem filter_metric_singleton {l : List Metric}
    (huniq : l.Pairwise (fun a b =>
      a.location_id = b.location_id → a.timestamp ≠ b.timestamp))
    {m : Metric} (hm : m ∈ l) :
    l.filter (fun x => x.location_id = m.location_id ∧ x.timestamp = m.timestamp)
      = [m] := by
  induction l with
  | nil => simp at hm
  | cons a rest ih =>
      rcases List.pairwise_cons.mp huniq with ⟨ha, hrest⟩
      rcases List.mem_cons.mp hm with h1 | h1
      · subst h1
        rw [List.filter_cons, if_pos (by simp)]
        have hnil : rest.filter
            (fun x => x.location_id = m.location_id ∧ x.timestamp = m.timestamp) = [] := by
          rw [List.filter_eq_nil_iff]
          intro q hq hql
          simp only [Bool.and_eq_true, decide_eq_true_eq] at hql
          exact (ha q hq hql.1.symm) hql.2.symm
        rw [hnil]
      · have hane : ¬(a.location_id = m.location_id ∧ a.timestamp = m.timestamp) := by
          rintro ⟨hl, ht⟩
          exact (ha m h1 hl) ht
        rw [List.filter_cons, if_neg (by simpa using hane)]
        exact ih hrest h1

theorem rows_for_loc (metrics : List Metric) (at_ : ℤ) (loc : Location) :
    ((¬ ∃ m ∈ metrics, m.location_id = loc.id ∧ m.timestamp ≤ at_) →
      ((groupMaxTs (metrics.filter (fun m => m.timestamp ≤ at_))).filter
        (fun p => p.1 = loc.id)) = []) ∧
    ((∃ m ∈ metrics, m.location_id = loc.id ∧ m.timestamp ≤ at_) →
      ∃ T, ((groupMaxTs (metrics.filter (fun m => m.timestamp ≤ at_))).filter
          (fun p => p.1 = loc.id)) = [(loc.id, T)] ∧
        (∃ m ∈ metrics, m.location_id = loc.id ∧ m.timestamp ≤ at_ ∧ m.timestamp = T) ∧
        (∀ m ∈ metrics, m.location_id = loc.id → m.timestamp ≤ at_ →
          m.timestamp ≤ T)) := by
  constructor
  · intro hno
    apply filter_key_nil
    intro t ht
    rcases (groupMaxTs_sound ht).1 with ⟨m, hm, hl, _⟩
    rcases List.mem_filter.mp hm with ⟨hm', hts⟩
    simp only [decide_eq_true_eq] at hts
    exact hno ⟨m, hm', hl, hts⟩
  · rintro ⟨m₀, hm₀, hl₀, ht₀⟩
    have hq : m₀ ∈ metrics.filter (fun m => m.timestamp ≤ at_) :=
      List.mem_filter.mpr ⟨hm₀, by simpa using ht₀⟩
    rcases groupMaxTs_complete hq with ⟨T, hT, _⟩
    rw [hl₀] at hT
    refine ⟨T, filter_key_eq (groupMaxTs_keys_nodup _) hT, ?_, ?_⟩
    · rcases (groupMaxTs_sound hT).1 with ⟨mT, hmT, hlT, htT⟩
      rcases List.mem_filter.mp hmT with ⟨hmT', htsT⟩
      simp only [decide_eq_true_eq] at htsT
      exact ⟨mT, hmT', hlT, htsT, htT⟩
    · intro m' hm' hl' ht'
      exact (groupMaxTs_sound hT).2 m'
        (List.mem_filter.mpr ⟨hm', by simpa using ht'⟩) hl'

theorem latest_none_eq (locs : List Location) (metrics : List Metric) (at_ : ℤ) :
    latest_intensity_for_locations locs metrics at_ none =
      (locs.flatMap (fun loc =>
        ((groupMaxTs (metrics.filter (fun m => m.timestamp ≤ at_))).filter
          (fun p => p.1 = loc.id)).flatMap (fun p =>
            (metrics.filter (fun m => m.location_id = p.1 ∧ m.timestamp = p.2)).map
              (fun m => (loc, m))))).map (fun r => (r.1, compute_intensity r.2.count)) :=
  rfl

theorem rowsFor_fst {metrics : List Metric} {at_ : ℤ} {loc : Location}
    {r : Location × Metric}
    (hr : r ∈ ((groupMaxTs (metrics.filter (fun m => m.timestamp ≤ at_))).filter
      (fun p => p.1 = loc.id)).flatMap (fun p =>
        (metrics.filter (fun m => m.location_id = p.1 ∧ m.timestamp = p.2)).map
          (fun m => (loc, m)))) : r.1 = loc := by
  rcases List.mem_flatMap.mp hr with ⟨p, _, hr2⟩
  rcases List.mem_map.mp hr2 with ⟨m, _, hm2⟩
  rw [← hm2]

theorem sum_count_unique {α : Type} {locs : List α} {keyf : α → ℕ}
    (hids : locs.Pairwise (fun a b => keyf a ≠ keyf b))
    {g : α → ℕ} {loc : α} (hloc : loc ∈ locs) {v : ℕ}
    (hself : g loc = v) (hother : ∀ a, keyf a ≠ keyf loc → g a = 0) :
    (locs.map g).sum = v := by
  induction locs with
  | nil => simp at hloc
  | cons x rest ih =>
      rcases List.pairwise_cons.mp hids with ⟨hx, hrest⟩
      rcases List.mem_cons.mp hloc with h1 | h1
      · subst h1
        have hzero : (rest.map g).sum = 0 := by
          apply List.sum_eq_zero
          intro v hv
          rcases List.mem_map.mp hv with ⟨a, ha, hga⟩
          rw [← hga]
          exact hother a (hx a ha).symm
        simp [hself, hzero]
      · have hx0 : g x = 0 := hother x (hx loc h1)
        simp [hx0, ih hrest h1]

/-- C1: with primary-key-distinct locations and the `(location_id, timestamp)`
uniqueness invariant, `latest_intensity_for_locations` (no type filter)
returns exactly one entry per Location having a metric at or before `at`,
computed from that Location's qualifying metric of maximum timestamp, and no
entry at all for Locations with no qualifying metric. -/
theorem latest_intensity_spec (locs : List Location) (metrics : List Metric) (at_ : ℤ)
    (hids : locs.Pairwise (fun a b => a.id ≠ b.id))
    (huniq : metrics.Pairwise (fun a b =>
      a.location_id = b.location_id → a.timestamp ≠ b.timestamp)) :
    ∀ loc ∈ locs,
      ((∃ m ∈ metrics, m.location_id = loc.id ∧ m.timestamp ≤ at_) →
        ∃ m ∈ metrics, m.location_id = loc.id ∧ m.timestamp ≤ at_ ∧
          (∀ m' ∈ metrics, m'.location_id = loc.id → m'.timestamp ≤ at_ →
            m'.timestamp ≤ m.timestamp) ∧
          (latest_intensity_for_locations locs metrics at_ none).countP
            (fun r => r.1.id == loc.id) = 1 ∧
          (loc, compute_intensity m.count) ∈
            latest_intensity_for_locations locs metrics at_ none) ∧
      ((¬ ∃ m ∈ metrics, m.location_id = loc.id ∧ m.timestamp ≤ at_) →
        ∀ r ∈ latest_intensity_for_locations locs metrics at_ none,
          r.1.id ≠ loc.id) := by
  intro loc hloc
  constructor
  · intro hex
    obtain ⟨T, hfilter, ⟨mT, hmT, hlT, htsT, htT⟩, hmax⟩ :=
      (rows_for_loc metrics at_ loc).2 hex
    have hFloc : ((groupMaxTs (metrics.filter (fun m => m.timestamp ≤ at_))).filter
        (fun p => p.1 = loc.id)).flatMap (fun p =>
          (metrics.filter (fun m => m.location_id = p.1 ∧ m.timestamp = p.2)).map
            (fun m => (loc, m))) = [(loc, mT)] := by
      rw [hfilter]
      have hpred : metrics.filter
          (fun m => m.location_id = (loc.id, T).1 ∧ m.timestamp = (loc.id, T).2)
          = [mT] := by
        have hsing := filter_metric_singleton huniq hmT
        rw [← hsing]
        apply List.filter_congr
        intro x _
        rw [hlT, htT]
      simp only [List.flatMap_cons, List.flatMap_nil, List.append_nil, hpred,
        List.map_cons, List.map_nil]
    refine ⟨mT, hmT, hlT, htsT, fun m' h1 h2 h3 => by rw [htT]; exact hmax m' h1 h2 h3,
      ?_, ?_⟩
    · rw [latest_none_eq, List.countP_map, countP_flatMap]
      apply sum_count_unique hids hloc
      · rw [hFloc]
        simp
      · intro a ha
        apply List.countP_eq_zero.mpr
        intro r hr
        have hfst := rowsFor_fst hr
        simp only [Function.comp_apply, beq_iff_eq, decide_eq_true_eq]
        intro hcontra
        apply ha
        rw [hfst] at hcontra
        exact hcontra
    · rw [latest_none_eq]
      have hmem0 : ((loc, mT) : Location × Metric) ∈ locs.flatMap (fun loc' =>
          ((groupMaxTs (metrics.filter (fun m => m.timestamp ≤ at_))).filter
            (fun p => p.1 = loc'.id)).flatMap (fun p =>
              (metrics.filter
                (fun m => m.location_id = p.1 ∧ m.timestamp = p.2)).map
                (fun m => (loc', m)))) :=
        List.mem_flatMap.mpr ⟨loc, hloc, by rw [hFloc]; exact List.mem_singleton_self _⟩
      exact List.mem_map_of_mem _ hmem0
  · intro hno r hr
    rw [latest_none_eq] at hr
    rcases List.mem_map.mp hr with ⟨r₀, hr₀, hG⟩
    rcases List.mem_flatMap.mp hr₀ with ⟨loc', hloc', hrF⟩
    have hfst : r₀.1 = loc' := rowsFor_fst hrF
    intro hid
    have h5 : loc'.id = loc.id := by
      rw [← hG] at hid
      rw [← hfst]
      exact hid
    rcases List.mem_flatMap.mp hrF with ⟨p, hp, _⟩
    rcases List.mem_filter.mp hp with ⟨hpg, hpkey⟩
    simp only [decide_eq_true_eq] at hpkey
    rcases (groupMaxTs_sound hpg).1 with ⟨mq, hmq, hml, _⟩
    rcases List.mem_filter.mp hmq with ⟨hmq', hqts⟩
    simp only [decide_eq_true_eq] at hqts
    exact hno ⟨mq, hmq', by rw [hml, hpkey, h5], hqts⟩

/-- Witness for C1: one location (id 1), one qualifying metric, exactly one
entry in the snapshot. -/
theorem latest_intensity_spec_witness :
    (latest_intensity_for_locations [locA] [metC] 0 none).countP
      (fun r => r.1.id == locA.id) = 1 := by
  obtain ⟨m, hm, hl, hts, hmax, hcount, hmem⟩ :=
    (latest_intensity_spec [locA] [metC] 0 (by decide) (by decide) locA
      (by decide)).1 ⟨metC, by decide, by decide, by decide⟩
  exact hcount

/-- C4 counterexample: with two observations for location 1 tied at the
maximum qualifying timestamp, `latest_intensity_for_locations` returns TWO
entries for that location (one per tied row), not exactly one. -/
theorem latest_intensity_tie_cex :
    (latest_intensity_for_locations [locA] [metA, metB] 0 none).map
      (fun r => r.1.id) = [1, 1] := by
  rw [latest_none_eq]
  simp [groupMaxTs, insertMaxTs, locA, metA, metB, List.filter]

/-- C4 (amended): when the `(location_id, timestamp)` uniqueness invariant is
violated, `latest_intensity_for_locations` returns one entry per Observation
attaining the maximum qualifying timestamp for that Location — a Location
with k tied Observations appears k times — rather than exactly one entry. -/
theorem latest_intensity_tie_rows (locs : List Location) (metrics : List Metric)
    (at_ : ℤ) (hids : locs.Pairwise (fun a b => a.id ≠ b.id))
    (loc : Location) (hloc : loc ∈ locs) (m₁ : Metric) (hm₁ : m₁ ∈ metrics)
    (hl₁ : m₁.location_id = loc.id) (ht₁ : m₁.timestamp ≤ at_)
    (hmax : ∀ m' ∈ metrics, m'.location_id = loc.id → m'.timestamp ≤ at_ →
      m'.timestamp ≤ m₁.timestamp) :
    (latest_intensity_for_locations locs metrics at_ none).countP
        (fun r => r.1.id == loc.id)
      = metrics.countP
        (fun m => decide (m.location_id = loc.id ∧ m.timestamp = m₁.timestamp)) := by
  obtain ⟨T, hfilter, ⟨mq, hmq, hlq, htsq, htq⟩, hmaxT⟩ :=
    (rows_for_loc metrics at_ loc).2 ⟨m₁, hm₁, hl₁, ht₁⟩
  have hTeq : T = m₁.timestamp := by
    have h1 : T ≤ m₁.timestamp := by
      rw [← htq]
      exact hmax mq hmq hlq htsq
    have h2 : m₁.timestamp ≤ T := hmaxT m₁ hm₁ hl₁ ht₁
    omega
  have hFloc : ((groupMaxTs (metrics.filter (fun m => m.timestamp ≤ at_))).filter
      (fun p => p.1 = loc.id)).flatMap (fun p =>
        (metrics.filter (fun m => m.location_id = p.1 ∧ m.timestamp = p.2)).map
          (fun m => (loc, m)))
      = (metrics.filter
          (fun m => m.location_id = loc.id ∧ m.timestamp = T)).map
          (fun m => (loc, m)) := by
    rw [hfilter]
    simp only [List.flatMap_cons, List.flatMap_nil, List.append_nil]
  rw [latest_none_eq, List.countP_map, countP_flatMap]
  apply sum_count_unique hids hloc
  · rw [hFloc, List.countP_map]
    have hlhs : List.countP (((fun r : Location × ℚ => r.1.id == loc.id) ∘
        fun r : Location × Metric => (r.1, compute_intensity r.2.count)) ∘
          fun m : Metric => (loc, m))
        (metrics.filter (fun m => m.location_id = loc.id ∧ m.timestamp = T))
        = (metrics.filter
          (fun m => m.location_id = loc.id ∧ m.timestamp = T)).length := by
      apply List.countP_eq_length.mpr
      intro a _
      simp
    rw [hlhs, ← List.countP_eq_length_filter, hTeq]
  · intro a ha
    apply List.countP_eq_zero.mpr
    intro r hr
    have hfst := rowsFor_fst hr
    simp only [Function.comp_apply, beq_iff_eq, decide_eq_true_eq]
    intro hcontra
    apply ha
    rw [hfst] at hcontra
    exact hcontra

/-- Witness for C4's amended theorem on the concrete tied store: the snapshot
contains one entry per tied metric. -/
theorem latest_intensity_tie_rows_witness :
    (latest_intensity_for_locations [locA] [metA, metB] 0 none).countP
        (fun r => r.1.id == locA.id)
      = [metA, metB].countP
        (fun m => decide (m.location_id = locA.id ∧ m.timestamp = metA.timestamp)) :=
  latest_intensity_tie_rows [locA] [metA, metB] 0 (by decide) locA (by decide)
    metA (by decide) (by decide) (by decide) (by decide)

/-! ## Lemmas for the aggregation query -/

theorem locs_filter_id {locs : List Location}
    (hids : locs.Pairwise (fun a b => a.id ≠ b.id)) (i : ℕ) :
    locs.filter (fun l => l.id = i) = [] ∨
    ∃ l₀, l₀ ∈ locs ∧ l₀.id = i ∧ locs.filter (fun l => l.id = i) = [l₀] := by
  induction locs with
  | nil => exact Or.inl rfl
  | cons a rest ih =>
      rcases List.pairwise_cons.mp hids with ⟨ha, hrest⟩
      by_cases hai : a.id = i
      · right
        refine ⟨a, List.mem_cons_self _ _, hai, ?_⟩
        rw [List.filter_cons, if_pos (by simp [hai])]
        have hnil : rest.filter (fun l => l.id = i) = [] := by
          rw [List.filter_eq_nil_iff]
          intro l hl hli
          simp only [decide_eq_true_eq] at hli
          exact (ha l hl) (by rw [hai, ← hli])
        rw [hnil]
      · rw [List.filter_cons, if_neg (by simp [hai])]
        rcases ih hrest with h | ⟨l₀, hl₀, hid₀, heq⟩
        · exact Or.inl h
        · exact Or.inr ⟨l₀, List.mem_cons_of_mem _ hl₀, hid₀, heq⟩

theorem filter_map_fst {α β γ : Type} (l : List (α × β)) (Q : α → Bool) (g : α → γ) :
    (l.filter (fun p => Q p.1)).map (fun p => g p.1)
      = ((l.map Prod.fst).filter Q).map g := by
  induction l with
  | nil => rfl
  | cons p rest ih =>
      by_cases hq : Q p.1
      · simp only [List.map_cons, List.filter_cons, hq, if_pos, List.map_cons, ih]
      · have hq' : Q p.1 = false := by simpa using hq
        simp [List.filter_cons, hq', ih]

theorem pairs_fst {locs : List Location}
    (hids : locs.Pairwise (fun a b => a.id ≠ b.id))
    (metrics : List Metric) (tv : String) (since : ℤ) :
    ((metrics.flatMap (fun m =>
        (locs.filter (fun l => l.id = m.location_id)).map (fun l => (m, l)))).filter
      (fun p => p.2.type = tv ∧ since ≤ p.1.timestamp)).map Prod.fst
    = metrics.filter (typeMatch locs tv since) := by
  induction metrics with
  | nil => rfl
  | cons m rest ih =>
      rw [List.flatMap_cons, List.filter_append, List.map_append, ih]
      have hany : (locs.any (fun l =>
          decide (l.id = m.location_id) && decide (l.type = tv)))
          = true ↔ ∃ l ∈ locs, l.id = m.location_id ∧ l.type = tv := by
        simp [List.any_eq_true]
      rcases locs_filter_id hids m.location_id with hnil | ⟨l₀, hl₀, hid₀, heq⟩
      · rw [hnil]
        have htm : typeMatch locs tv since m = false := by
          unfold typeMatch
          have : locs.any (fun l =>
              decide (l.id = m.location_id) && decide (l.type = tv)) = false := by
            rw [← Bool.not_eq_true, hany]
            rintro ⟨l, hl, hid, _⟩
            have := List.filter_eq_nil_iff.mp hnil l hl
            simp [hid] at this
          rw [this, Bool.and_false]
        rw [List.filter_cons, htm]
        simp
      · rw [heq]
        have hmemiff : ∀ l, l ∈ locs → l.id = m.location_id → l = l₀ := by
          intro l hl hid
          have : l ∈ locs.filter (fun l => l.id = m.location_id) :=
            List.mem_filter.mpr ⟨hl, by simp [hid]⟩
          rw [heq] at this
          simpa using this
        by_cases htv : l₀.type = tv
        · by_cases hts : since ≤ m.timestamp
          · have htm : typeMatch locs tv since m = true := by
              unfold typeMatch
              rw [Bool.and_eq_true, hany]
              exact ⟨by simpa using hts, l₀, hl₀, hid₀, htv⟩
            rw [List.filter_cons, htm]
            simp only [List.map_cons, List.map_nil, List.filter_cons]
            rw [if_pos (by simp [htv, hts])]
            simp
          · have htm : typeMatch locs tv since m = false := by
              unfold typeMatch
              simp [hts]
            rw [List.filter_cons, htm]
            simp only [List.map_cons, List.map_nil, List.filter_cons]
            rw [if_neg (by simp [hts])]
            simp
        · have htm : typeMatch locs tv since m = false := by
            unfold typeMatch
            have : locs.any (fun l =>
                decide (l.id = m.location_id) && decide (l.type = tv)) = false := by
              rw [← Bool.not_eq_true, hany]
              rintro ⟨l, hl, hid, htype⟩
              exact htv (by rw [← hmemiff l hl hid]; exact htype)
            rw [this, Bool.and_false]
          rw [List.filter_cons, htm]
          simp only [List.map_cons, List.map_nil, List.filter_cons]
          rw [if_neg (by simp [htv])]
          simp

theorem gmft_eq (locs : List Location) (metrics : List Metric) (tv : String)
    (since : ℤ) :
    get_metrics_for_type locs metrics tv since =
      ((((metrics.flatMap (fun m =>
          (locs.filter (fun l => l.id = m.location_id)).map (fun l => (m, l)))).filter
            (fun p => p.2.type = tv ∧ since ≤ p.1.timestamp)).map
          (fun p => p.1.timestamp)).toFinset.sort (· ≤ ·)).map
        (fun t => (t, ((((metrics.flatMap (fun m =>
          (locs.filter (fun l => l.id = m.location_id)).map (fun l => (m, l)))).filter
            (fun p => p.2.type = tv ∧ since ≤ p.1.timestamp)).filter
              (fun p => p.1.timestamp = t)).map (fun p => p.1.count)).sum)) :=
  rfl

/-- C3: with primary-key-distinct locations, `get_metrics_for_type` returns,
in strictly ascending timestamp order, one row per distinct timestamp among
the metrics whose owning location has the requested type and whose timestamp
is at or after `since`; each row's count is the sum of those metrics' counts;
a type matching no location yields the empty sequence. -/
theorem get_metrics_for_type_spec (locs : List Location) (metrics : List Metric)
    (tv : String) (since : ℤ)
    (hids : locs.Pairwise (fun a b => a.id ≠ b.id)) :
    List.Pairwise (fun a b => a.1 < b.1) (get_metrics_for_type locs metrics tv since) ∧
    (∀ t c, (t, c) ∈ get_metrics_for_type locs metrics tv since ↔
      ((∃ m ∈ metrics, m.timestamp = t ∧ since ≤ m.timestamp ∧
          ∃ l ∈ locs, l.id = m.location_id ∧ l.type = tv) ∧
        c = ((metrics.filter (fun m =>
            decide (m.timestamp = t) && typeMatch locs tv since m)).map
          (fun m => m.count)).sum)) ∧
    ((∀ l ∈ locs, l.type ≠ tv) → get_metrics_for_type locs metrics tv since = []) := by
  have hfst := pairs_fst hids metrics tv since
  have htsmap : ((metrics.flatMap (fun m =>
      (locs.filter (fun l => l.id = m.location_id)).map (fun l => (m, l)))).filter
        (fun p => p.2.type = tv ∧ since ≤ p.1.timestamp)).map (fun p => p.1.timestamp)
      = (metrics.filter (typeMatch locs tv since)).map (fun m => m.timestamp) := by
    rw [← hfst, List.map_map]
    rfl
  have hsum : ∀ t, ((((metrics.flatMap (fun m =>
      (locs.filter (fun l => l.id = m.location_id)).map (fun l => (m, l)))).filter
        (fun p => p.2.type = tv ∧ since ≤ p.1.timestamp)).filter
          (fun p => p.1.timestamp = t)).map (fun p => p.1.count)).sum
      = ((metrics.filter (fun m =>
          decide (m.timestamp = t) && typeMatch locs tv since m)).map
        (fun m => m.count)).sum := by
    intro t
    rw [filter_map_fst _ (fun m : Metric => decide (m.timestamp = t))
      (fun m : Metric => m.count), hfst, List.filter_filter]
  refine ⟨?_, ?_, ?_⟩
  · rw [gmft_eq]
    exact List.pairwise_map.mpr (Finset.sort_sorted_lt _)
  · intro t c
    rw [gmft_eq]
    constructor
    · intro hmem
      rcases List.mem_map.mp hmem with ⟨t', ht', heq⟩
      rw [Prod.mk.injEq] at heq
      obtain ⟨rfl, rfl⟩ := heq
      have ht'' : t' ∈ (metrics.filter (typeMatch locs tv since)).map
          (fun m => m.timestamp) := by
        rw [← htsmap]
        exact List.mem_toFinset.mp ((Finset.mem_sort _).mp ht')
      rcases List.mem_map.mp ht'' with ⟨m, hm, hmt⟩
      rcases List.mem_filter.mp hm with ⟨hm', hq⟩
      unfold typeMatch at hq
      rw [Bool.and_eq_true, List.any_eq_true] at hq
      obtain ⟨hsince, l, hl, hlq⟩ := hq
      rw [Bool.and_eq_true, decide_eq_true_eq, decide_eq_true_eq] at hlq
      simp only [decide_eq_true_eq] at hsince
      exact ⟨⟨m, hm', hmt, hsince, l, hl, hlq.1, hlq.2⟩, hsum t'⟩
    · rintro ⟨⟨m, hm, hmt, hsince, l, hl, hid, htype⟩, hc⟩
      have hq : typeMatch locs tv since m = true := by
        unfold typeMatch
        rw [Bool.and_eq_true, List.any_eq_true]
        exact ⟨by simpa using hsince, l, hl, by simp [hid, htype]⟩
      have htmem : t ∈ (((metrics.flatMap (fun m =>
          (locs.filter (fun l => l.id = m.location_id)).map (fun l => (m, l)))).filter
            (fun p => p.2.type = tv ∧ since ≤ p.1.timestamp)).map
          (fun p => p.1.timestamp)).toFinset.sort (· ≤ ·) := by
        rw [Finset.mem_sort, List.mem_toFinset, htsmap]
        exact List.mem_map.mpr ⟨m, List.mem_filter.mpr ⟨hm, hq⟩, hmt⟩
      refine List.mem_map.mpr ⟨t, htmem, ?_⟩
      rw [Prod.mk.injEq]
      exact ⟨rfl, by rw [hsum t, ← hc]⟩
  · intro hno
    have hpairs_nil : (metrics.flatMap (fun m =>
        (locs.filter (fun l => l.id = m.location_id)).map (fun l => (m, l)))).filter
          (fun p => p.2.type = tv ∧ since ≤ p.1.timestamp) = [] := by
      rw [List.filter_eq_nil_iff]
      intro p hp hP
      rcases List.mem_flatMap.mp hp with ⟨m, _, hp2⟩
      rcases List.mem_map.mp hp2 with ⟨l, hl, heq⟩
      rcases List.mem_filter.mp hl with ⟨hl', _⟩
      simp only [decide_eq_true_eq] at hP
      apply hno l hl'
      rw [← heq] at hP
      exact hP.1
    rw [gmft_eq, hpairs_nil]
    simp

/-- Witness for C3: two traffic locations with observations at the same
timestamp 5 and counts 300 and 700 yield the aggregate row `(5, 1000)`. -/
theorem get_metrics_for_type_spec_witness :
    (5, 1000) ∈ get_metrics_for_type [locT1, locT2] [metT1, metT2] "traffic" 0 :=
  ((get_metrics_for_type_spec [locT1, locT2] [metT1, metT2] "traffic" 0
      (by decide)).2.1 5 1000).mpr
    ⟨⟨metT1, by decide, by decide, by decide, locT1, by decide, by decide, by decide⟩,
      by decide⟩

/-! ## Lemmas for the synthetic generator -/

theorem mem_hourList {hours h : ℕ} (hh : h ∈ hourList hours) : 1 ≤ h ∧ h ≤ hours := by
  unfold hourList at hh
  rcases List.mem_map.mp hh with ⟨i, hi, rfl⟩
  have := List.mem_range.mp hi
  omega

theorem hours_mem_hourList {hours : ℕ} (h : 0 < hours) : hours ∈ hourList hours := by
  unfold hourList
  exact List.mem_map.mpr ⟨0, List.mem_range.mpr h, by simp⟩

/-- C5: with the window-length argument omitted (the `24 * 7` default) and an
empty location store, `seed_data` does not generate observations over any
lookback window at all: the very first per-hour record construction passes
the `pedestrian_count=` keyword to the unified-count `models.Metric`
constructor, raising `TypeError`, which propagates out of the seeder. -/
theorem seed_data_raises_typeerror (exp : ℚ → ℚ) (noise : ℕ → ℕ → ℕ → ℚ)
    (now : ℤ) :
    seed_data exp noise ⟨[], []⟩ now
      = Except.error
        "TypeError: 'pedestrian_count' is an invalid keyword argument for Metric" := by
  unfold seed_data
  rw [if_neg (by decide)]
  rfl

/-- C9: if the location store already holds at least one Location, `seed_data`
returns immediately (before the broken `models.Metric` constructor call is
ever reached), leaving both stores completely unchanged. -/
theorem seed_data_frame (exp : ℚ → ℚ) (noise : ℕ → ℕ → ℕ → ℚ) (db : SeedDB)
    (now : ℤ) (hours : ℕ) (hne : db.locations ≠ []) :
    seed_data exp noise db now hours = Except.ok db := by
  unfold seed_data
  rw [if_pos (List.length_pos.mpr hne)]

/-- Witness for C9: a store with one location passes through unchanged. -/
theorem seed_data_frame_witness :
    (⟨[locA], []⟩ : SeedDB).locations ≠ [] ∧
    seed_data (fun _ => (0:ℚ)) (fun _ _ _ => 0) ⟨[locA], []⟩ 0 24
      = Except.ok ⟨[locA], []⟩ :=
  ⟨by decide, seed_data_frame (fun _ => (0:ℚ)) (fun _ _ _ => 0) ⟨[locA], []⟩ 0 24
    (by decide)⟩

/-- C6: `location_scalers` and `pseudo_hash` are pure functions of their
string arguments.  In this embedding neither takes the random source as an
input — mirroring the Python, where neither function reads the `random`
module — so the scaler triple is independent of the generator's seed and
state by construction, and equal inputs give equal outputs across runs. -/
theorem location_scalers_deterministic :
    (∀ n₁ t₁ n₂ t₂ : String, n₁ = n₂ → t₁ = t₂ →
      location_scalers n₁ t₁ = location_scalers n₂ t₂) ∧
    (∀ s₁ s₂ : String, s₁ = s₂ → pseudo_hash s₁ = pseudo_hash s₂) :=
  ⟨fun _ _ _ _ hn ht => by rw [hn, ht], fun _ _ hs => by rw [hs]⟩

/-- Witness for C6 at two concrete strings. -/
theorem location_scalers_deterministic_witness :
    location_scalers "Pitt St Mall" "pedestrian"
      = location_scalers "Pitt St Mall" "pedestrian" ∧
    pseudo_hash "QVB" = pseudo_hash "QVB" :=
  ⟨location_scalers_deterministic.1 _ _ _ _ rfl rfl,
    location_scalers_deterministic.2 _ _ rfl⟩

/-- C7: the generator's weekend modulation multiplies the pedestrian value by
1.15 in the 10..20 band and by 0.9 otherwise, and the traffic value by 0.7 in
the 7..10 and 16..19 commute bands and by 0.85 otherwise (weekday ≥ 5 being
Saturday/Sunday); independently, for every hour < 5 the late-night damping
multiplies pedestrian by 0.4 and traffic by 0.55. -/
theorem weekend_late_night_modulation (weekday hour : ℤ) (p t : ℚ) :
    (5 ≤ weekday → 10 ≤ hour → hour ≤ 20 →
      (weekend_adjust weekday hour p t).1 = p * 1.15) ∧
    (5 ≤ weekday → ¬(10 ≤ hour ∧ hour ≤ 20) →
      (weekend_adjust weekday hour p t).1 = p * 0.9) ∧
    (5 ≤ weekday → ((7 ≤ hour ∧ hour ≤ 10) ∨ (16 ≤ hour ∧ hour ≤ 19)) →
      (weekend_adjust weekday hour p t).2 = t * 0.7) ∧
    (5 ≤ weekday → ¬((7 ≤ hour ∧ hour ≤ 10) ∨ (16 ≤ hour ∧ hour ≤ 19)) →
      (weekend_adjust weekday hour p t).2 = t * 0.85) ∧
    (hour < 5 → late_night_adjust hour p t = (p * 0.4, t * 0.55)) := by
  refine ⟨?_, ?_, ?_, ?_, ?_⟩
  · intro hw h1 h2
    unfold weekend_adjust
    rw [if_pos hw]
    show p * (if 10 ≤ hour ∧ hour ≤ 20 then (1.15:ℚ) else 0.9) = p * 1.15
    rw [if_pos ⟨h1, h2⟩]
  · intro hw hband
    unfold weekend_adjust
    rw [if_pos hw]
    show p * (if 10 ≤ hour ∧ hour ≤ 20 then (1.15:ℚ) else 0.9) = p * 0.9
    rw [if_neg hband]
  · intro hw hband
    unfold weekend_adjust
    rw [if_pos hw]
    show t * (if (7 ≤ hour ∧ hour ≤ 10) ∨ (16 ≤ hour ∧ hour ≤ 19)
        then (0.7:ℚ) else 0.85) = t * 0.7
    rw [if_pos hband]
  · intro hw hband
    unfold weekend_adjust
    rw [if_pos hw]
    show t * (if (7 ≤ hour ∧ hour ≤ 10) ∨ (16 ≤ hour ∧ hour ≤ 19)
        then (0.7:ℚ) else 0.85) = t * 0.85
    rw [if_neg hband]
  · intro hlate
    unfold late_night_adjust
    rw [if_pos hlate]

/-- Witness for C7 at a Saturday midday hour and a late-night hour. -/
theorem weekend_late_night_modulation_witness :
    (weekend_adjust 6 12 1 1).1 = 1 * 1.15 ∧
    late_night_adjust 3 1 1 = (1 * 0.4, 1 * 0.55) :=
  ⟨(weekend_late_night_modulation 6 12 1 1).1 (by norm_num) (by norm_num)
      (by norm_num),
    (weekend_late_night_modulation 6 3 1 1).2.2.2.2 (by norm_num)⟩

/-- C8: `gaussian_peak` raises `ZeroDivisionError` (the `none` branch) only
when `sigma = 0`; for every negative `sigma` it silently returns a value —
there is no defensive assertion rejecting `sigma <= 0`. -/
theorem gaussian_peak_sigma_behavior (exp : ℚ → ℚ) (x mean sigma : ℚ) :
    (sigma = 0 → gaussian_peak exp x mean sigma = none) ∧
    (sigma < 0 → (gaussian_peak exp x mean sigma).isSome = true) := by
  constructor
  · intro h
    subst h
    unfold gaussian_peak
    rw [if_pos (by norm_num)]
  · intro h
    unfold gaussian_peak
    rw [if_neg]
    · rfl
    · have hne : sigma ≠ 0 := ne_of_lt h
      have h2 : 0 < sigma ^ 2 := by positivity
      intro hc
      nlinarith

/-- Witness for C8 at `sigma = -1` and `sigma = 0` with the identity oracle
standing in for `math.exp`. -/
theorem gaussian_peak_sigma_behavior_witness :
    ((-1 : ℚ) < 0 ∧ (gaussian_peak (fun q => q) 0 0 (-1)).isSome = true) ∧
    ((0 : ℚ) = 0 ∧ gaussian_peak (fun q => q) 0 0 0 = none) :=
  ⟨⟨by norm_num, (gaussian_peak_sigma_behavior (fun q => q) 0 0 (-1)).2 (by norm_num)⟩,
    ⟨rfl, (gaussian_peak_sigma_behavior (fun q => q) 0 0 0).1 rfl⟩⟩
